import Mathlib

/-!
Verification of `src/helper_scripts/draw_graph.py` (repository
JaNoNi/MADS-EMDM-Exam2), a helper for rendering bipartite-style graphs
with networkx and matplotlib.

Shallow embedding conventions:
* Python node identifiers are modelled as `String` (nodes and labels
  in this script are plain values; the derived label dictionaries map
  a node to itself).
* Python numbers (node sizes, edge weights, reduction factors) are
  modelled as `ℚ`; Python `/` is exact division here.
* A Python `dict` is an association list `List (Node × α)`; keys of a
  real Python dict are unique, and `dictLookup` returns the first
  binding, which coincides with dict lookup on unique keys.
* A raised `LookupError` (`KeyError` from `d[k]`, `IndexError` from
  `l[i]`) is modelled by `none` in `Option`-valued computations;
  `dict.get(k, default)` is `(dictLookup d k).getD default` and never
  fails.
* The external networkx/matplotlib calls (`spring_layout`,
  `draw_networkx_nodes`, `draw_networkx_edges`, `plt.legend`) only
  consume data; the embedding records the data each call receives
  (`NodeDrawCall`, `EdgeDrawCall`, the legend toggle) instead of
  performing rendering side effects.  Purely cosmetic parameters that
  are passed through unchanged to the renderer (alpha, font size,
  zorder, style, figsize, dpi) are not tracked.
-/

/-- Python node identifiers (strings in this script). -/
abbrev Node := String

/-- A Python dict keyed by nodes: an association list. -/
abbrev PyDict (α : Type) := List (Node × α)

/-- The externally owned networkx graph: a node list (`G.nodes()`) and a
weighted adjacency (`G.has_edge(a, b)` and `G[a][b]["weight"]`).
`weight a b = some w` means the edge `(a, b)` exists and carries weight
attribute `w`; every edge drawn by this script is looked up for its
`"weight"`, so edges are modelled as always weighted. -/
structure PyGraph where
  nodes : List Node
  weight : Node → Node → Option ℚ

/-- `G.has_edge(a, b)`. -/
def PyGraph.hasEdge (G : PyGraph) (a b : Node) : Bool :=
  (G.weight a b).isSome

/-- Python `d[k]` without a default: first binding of `k`, or `none`
(a raised `KeyError`). -/
def dictLookup {α : Type} : PyDict α → Node → Option α
  | [], _ => none
  | (k1, v) :: rest, k => if k1 = k then some v else dictLookup rest k

/-- Python's four-way `zip(...)`: truncates to the shortest input. -/
def zip4 {α β γ δ : Type} : List α → List β → List γ → List δ → List (α × β × γ × δ)
  | a :: as, b :: bs, c :: cs, d :: ds => (a, b, c, d) :: zip4 as bs cs ds
  | _, _, _, _ => []

/-- A Python list comprehension whose element expression may raise:
`[f x for x in l]` where `f` returns `none` on a raised lookup. -/
def mapOpt {α β : Type} (f : α → Option β) : List α → Option (List β)
  | [] => some []
  | a :: as => do
      let b ← f a
      let bs ← mapOpt f as
      pure (b :: bs)

/-! ## prepare_drawing (lines 9-17) -/

/-- The partition loop of `prepare_drawing` (lines 10-15): iterate over
`G.nodes()` appending to `left_nodes` when the node is in `groups`,
else to `right_nodes`. -/
def splitByGroups (groups : List Node) : List Node → List Node × List Node
  | [] => ([], [])
  | n :: ns =>
      let (l, r) := splitByGroups groups ns
      if n ∈ groups then (n :: l, r) else (l, n :: r)

/-- `prepare_drawing` (lines 9-17).  The force-directed layout is
delegated to `nx.drawing.layout.spring_layout`, an external routine;
it is passed in as `springLayout` and applied to the graph and the
random seed. -/
def prepare_drawing (G : PyGraph) (groups : List Node)
    (springLayout : PyGraph → ℕ → Node → ℚ × ℚ) (random_seed : ℕ) :
    (Node → ℚ × ℚ) × List Node × List Node :=
  (springLayout G random_seed, splitByGroups groups G.nodes)

/-! ## draw_nodes (lines 37-69) -/

/-- The `node_color` argument of `nx.draw_networkx_nodes`: either one
color string for the whole group or one color per node. -/
inductive NodeColorSpec where
  | single (c : String)
  | perNode (cs : List String)
deriving Repr, DecidableEq

/-- The data one `draw_nodes` call hands to the renderer: the node
list and marker sizes given to `nx.draw_networkx_nodes`, the color
argument, and, when labels are drawn, the label dict given to
`nx.draw_networkx_labels` together with its font color. -/
structure NodeDrawCall where
  node_list : List Node
  sizes : List ℚ
  color : NodeColorSpec
  font_color : String
  labels : Option (List (Node × String))
deriving Repr, DecidableEq

/-- `draw_nodes` (lines 37-69): marker sizes are
`size_dict[node] / node_size_reduction_factor` for each node of
`node_list` (line 53, raising `KeyError` when a node is missing);
when `add_labels` is true the labels dict is
`label_dict.get(node, "")` over `node_list` (line 62, never raising). -/
def draw_nodes (node_list : List Node) (size_dict : PyDict ℚ)
    (add_labels : Bool) (label_dict : PyDict String) (color : NodeColorSpec)
    (node_size_reduction_factor : ℚ) (font_color : String) :
    Option NodeDrawCall := do
  let sizes ← mapOpt (fun n => (dictLookup size_dict n).map
    (fun s => s / node_size_reduction_factor)) node_list
  pure ⟨node_list, sizes, color, font_color,
    if add_labels then
      some (node_list.map (fun n => (n, (dictLookup label_dict n).getD "")))
    else none⟩

/-! ## main (lines 222-223) -/

/-! ## draw_graph (lines 72-187) -/

/-- The data one `nx.draw_networkx_edges` call receives (lines
162-171): the single edge `(node1, node2)`, the line width
`weight / edge_linewidth_reduction_factor`, and the edge color. -/
structure EdgeDrawCall where
  node1 : Node
  node2 : Node
  width : ℚ
  color : String
deriving Repr, DecidableEq

/-- Everything a `draw_graph` call hands to the renderer: the node
group draws (loop of lines 110-131), the edge draws (loop of lines
149-171), the `node_size` list handed to the edge drawer only when
`curved_edges` is set (lines 136-147), and whether `make_legend` is
called (lines 179-180). -/
structure DrawResult where
  nodeCalls : List NodeDrawCall
  edgeCalls : List EdgeDrawCall
  edgeArgsNodeSize : Option (List ℚ)
  legendDrawn : Bool
deriving Repr, DecidableEq

/-- Default for the `nodes_font_colors` parameter (line 78). -/
def defaultNodesFontColors : List String := ["#CEECFF", "#FFD0FD"]

/-- Per-group color choice (lines 113-117): with `node_colors` given,
one color per node via `node_colors.get(node, "grey")`, else the
single palette color `"C" ++ idx`. -/
def groupColor (node_colors : Option (PyDict String)) (idx : ℕ)
    (nodes_draw : List Node) : NodeColorSpec :=
  match node_colors with
  | some nc => NodeColorSpec.perNode
      (nodes_draw.map (fun n => (dictLookup nc n).getD "grey"))
  | none => NodeColorSpec.single ("C" ++ toString idx)

/-- The node-drawing loop of `draw_graph` (lines 110-131):
`for idx, (nodes_draw, nodes_labels, node_font_color, node_sizes) in
enumerate(zip(...))`, calling `draw_nodes` for each tuple. -/
def drawNodesLoop (node_colors : Option (PyDict String))
    (add_labels : Bool) (node_size_reduction_factor : ℚ) :
    List (List Node × PyDict String × String × PyDict ℚ) → ℕ →
    Option (List NodeDrawCall)
  | [], _ => some []
  | (nodes_draw, nodes_labels, node_font_color, node_sizes) :: rest, idx => do
      let call ← draw_nodes nodes_draw node_sizes add_labels nodes_labels
        (groupColor node_colors idx nodes_draw)
        node_size_reduction_factor node_font_color
      let calls ← drawNodesLoop node_colors add_labels
        node_size_reduction_factor rest (idx + 1)
      pure (call :: calls)

/-- One binding of the first dict after `dict(d0, **d1)`: its value is
overridden when the second dict also has the key. -/
def overridePair {α : Type} (d1 : PyDict α) (p : Node × α) : Node × α :=
  match dictLookup d1 p.1 with
  | some v => (p.1, v)
  | none => p

/-- `dict(d0, **d1)` (line 133): the keys of `d0`, with values
overridden by `d1` where shared, followed by the keys of `d1` that are
not in `d0`. -/
def pyDictMerge (d0 d1 : PyDict ℚ) : PyDict ℚ :=
  d0.map (overridePair d1)
  ++ d1.filter (fun p => (dictLookup d0 p.1).isNone)

/-- The edge color logic of lines 155-160: start from the theme's
`edge_color`; with `node_colors` given, prefer `node_colors[node1]`,
then `node_colors[node2]`. -/
def edgeCallColor (node_colors : Option (PyDict String))
    (edge_color : String) (n1 n2 : Node) : String :=
  match node_colors with
  | none => edge_color
  | some nc =>
      match dictLookup nc n1 with
      | some c => c
      | none =>
          match dictLookup nc n2 with
          | some c => c
          | none => edge_color

/-- The edge-drawing double loop of lines 149-171: for `node1` in
`nodes_draw_list[0]` and `node2` in `nodes_draw_list[1]`, if
`G.has_edge(node1, node2)`, draw the single edge with width
`G[node1][node2]["weight"] / edge_linewidth_reduction_factor`. -/
def edgeCallList (G : PyGraph) (dl0 dl1 : List Node)
    (edge_linewidth_reduction_factor : ℚ)
    (node_colors : Option (PyDict String)) (edge_color : String) :
    List EdgeDrawCall :=
  dl0.flatMap (fun n1 => dl1.filterMap (fun n2 =>
    (G.weight n1 n2).map (fun w =>
      ⟨n1, n2, w / edge_linewidth_reduction_factor,
        edgeCallColor node_colors edge_color n1 n2⟩)))

/-- `draw_graph` (lines 72-187).  The `ax` argument is `some ()` when
the caller passes axes (line 95: `no_ax_input` is false) and `none`
otherwise.  Failure points, in the source's execution order: a missing
size key inside the node loop (line 53 via line 118), the
`nodes_sizes_list[0]` / `nodes_sizes_list[1]` indexing (line 133), a
node of `G` missing from the merged size dict (line 134), and the
`nodes_draw_list[0]` / `nodes_draw_list[1]` indexing (lines 149-150).
The legend is made only when `legend_labels is not None and
no_ax_input` (line 179). -/
def draw_graph (G : PyGraph)
    (nodes_draw_list : List (List Node))
    (nodes_labels_list : List (PyDict String))
    (nodes_sizes_list : List (PyDict ℚ))
    (nodes_font_colors : List String)
    (ax : Option Unit)
    (add_labels : Bool)
    (dark_mode : Bool)
    (node_colors : Option (PyDict String))
    (node_size_reduction_factor : ℚ)
    (edge_linewidth_reduction_factor : ℚ)
    (curved_edges : Bool)
    (legend_labels : Option (PyDict String)) :
    Option DrawResult := do
  let no_ax_input := ax.isNone
  let edge_color := if dark_mode then "#A47FFF" else "k"
  let nodeCalls ← drawNodesLoop node_colors add_labels
    node_size_reduction_factor
    (zip4 nodes_draw_list nodes_labels_list nodes_font_colors
      nodes_sizes_list) 0
  let d0 ← nodes_sizes_list.get? 0
  let d1 ← nodes_sizes_list.get? 1
  let node_size ← mapOpt (fun n => (dictLookup (pyDictMerge d0 d1) n).map
    (fun s => s / node_size_reduction_factor)) G.nodes
  let dl0 ← nodes_draw_list.get? 0
  let dl1 ← nodes_draw_list.get? 1
  pure ⟨nodeCalls,
    edgeCallList G dl0 dl1 edge_linewidth_reduction_factor
      node_colors edge_color,
    if curved_edges then some node_size else none,
    legend_labels.isSome && no_ax_input⟩

/-! ## draw_graph_filtered (lines 190-219) -/

/-- The draw-list filter of line 205:
`[n for n in _nodes if _sizes[n] >= _min_size]`, raising on a missing
size key. -/
def sizeFilter (sizes : PyDict ℚ) (min_size : ℚ) :
    List Node → Option (List Node)
  | [] => some []
  | n :: ns => do
      let s ← dictLookup sizes n
      let rest ← sizeFilter sizes min_size ns
      pure (if min_size ≤ s then n :: rest else rest)

/-- The derived label dict of lines 209-211:
`\x7bn: n for n in _nodes if _sizes[n] >= _min_size_label\x7d`. -/
def labelDerive (sizes : PyDict ℚ) (min_size_label : ℚ) :
    List Node → Option (PyDict String)
  | [] => some []
  | n :: ns => do
      let s ← dictLookup sizes n
      let rest ← labelDerive sizes min_size_label ns
      pure (if min_size_label ≤ s then (n, n) :: rest else rest)

/-- The Boolean form of the filter predicate `_sizes[n] >= _min_size`,
used to state what `sizeFilter` and `labelDerive` keep: true exactly
when the node has a recorded size at least the threshold. -/
def sizePred (sizes : PyDict ℚ) (min_size : ℚ) (n : Node) : Bool :=
  match dictLookup sizes n with
  | some s => decide (min_size ≤ s)
  | none => false

/-- The loop of `draw_graph_filtered` (lines 200-211): over
`enumerate(zip(nodes_list, nodes_sizes_list, min_sizes,
min_sizes_labels))`, build the filtered draw list, then the label
dict: the caller's `nodes_labels_list[idx]` when `nodes_labels_list`
is given and its `idx` entry is not `None` (the indexing itself can
raise `IndexError`), else the derived dict. -/
def fgLoop (nodes_labels_list : Option (List (Option (PyDict String)))) :
    List (List Node × PyDict ℚ × ℚ × ℚ) → ℕ →
    Option (List (List Node) × List (PyDict String))
  | [], _ => some ([], [])
  | (ns, sizes, min_size, min_size_label) :: rest, idx => do
      let draw ← sizeFilter sizes min_size ns
      let lbl ←
        match nodes_labels_list with
        | some ll =>
            match ll.get? idx with
            | none => none
            | some (some d) => some d
            | some none => labelDerive sizes min_size_label ns
        | none => labelDerive sizes min_size_label ns
      let (draws, lbls) ← fgLoop nodes_labels_list rest (idx + 1)
      pure (draw :: draws, lbl :: lbls)

/-- The pair of lists `draw_graph_filtered` builds and passes on to
`draw_graph` as `nodes_draw_list` and `nodes_labels_list`. -/
def filteredDrawLabels (nodes_list : List (List Node))
    (nodes_sizes_list : List (PyDict ℚ))
    (min_sizes : List ℚ) (min_sizes_labels : List ℚ)
    (nodes_labels_list : Option (List (Option (PyDict String)))) :
    Option (List (List Node) × List (PyDict String)) :=
  fgLoop nodes_labels_list
    (zip4 nodes_list nodes_sizes_list min_sizes min_sizes_labels) 0

/-- `draw_graph_filtered` (lines 190-219): filter, then delegate to
`draw_graph` with the filtered draw lists, the label dicts, and the
unchanged `nodes_sizes_list`; the remaining keyword arguments are
passed through. -/
def draw_graph_filtered (G : PyGraph)
    (nodes_list : List (List Node))
    (nodes_sizes_list : List (PyDict ℚ))
    (min_sizes : List ℚ) (min_sizes_labels : List ℚ)
    (nodes_labels_list : Option (List (Option (PyDict String))))
    (nodes_font_colors : List String)
    (ax : Option Unit)
    (add_labels : Bool)
    (dark_mode : Bool)
    (node_colors : Option (PyDict String))
    (node_size_reduction_factor : ℚ)
    (edge_linewidth_reduction_factor : ℚ)
    (curved_edges : Bool)
    (legend_labels : Option (PyDict String)) :
    Option DrawResult :=
  match filteredDrawLabels nodes_list nodes_sizes_list min_sizes
    min_sizes_labels nodes_labels_list with
  | none => none
  | some (nodes_draw_list, labels_list) =>
      draw_graph G nodes_draw_list labels_list nodes_sizes_list
        nodes_font_colors ax add_labels dark_mode node_colors
        node_size_reduction_factor edge_linewidth_reduction_factor
        curved_edges legend_labels

namespace DrawGraphScript

/-- `main` (lines 222-223): returns the empty tuple and does nothing
else.  (Namespaced because a bare `main` has reserved meaning in Lean.) -/
def main : Unit := ()

end DrawGraphScript

/-! ## Concrete fixtures used by the witness instances -/

/-- A small weighted graph: nodes a, b, c with one undirected weighted
edge between a and b. -/
def exGraph : PyGraph :=
  ⟨["a", "b", "c"], fun x y =>
    if (x = "a" ∧ y = "b") ∨ (x = "b" ∧ y = "a") then some 6 else none⟩

/-- A graph with no nodes and no edges. -/
def exEmptyGraph : PyGraph := ⟨[], fun _ _ => none⟩

/-- A stand-in for the external force-directed layout routine. -/
def exLayout : PyGraph → ℕ → Node → ℚ × ℚ := fun _ _ _ => (0, 0)

/-! ## Helper lemmas: dictionaries -/

theorem dictLookup_append {α : Type} (l1 l2 : PyDict α) (k : Node) :
    dictLookup (l1 ++ l2) k =
      match dictLookup l1 k with
      | some v => some v
      | none => dictLookup l2 k := by
  induction l1 with
  | nil => simp [dictLookup]
  | cons p rest ih =>
      obtain ⟨k1, v⟩ := p
      by_cases h : k1 = k <;> simp [dictLookup, h, ih]

theorem dictLookup_mapOverride {α : Type} (d0 d1 : PyDict α) (k : Node) :
    dictLookup (d0.map (overridePair d1)) k =
      match dictLookup d0 k, dictLookup d1 k with
      | none, _ => none
      | some v0, none => some v0
      | some _, some v1 => some v1 := by
  induction d0 with
  | nil => simp [dictLookup]
  | cons p rest ih =>
      obtain ⟨a, w⟩ := p
      by_cases h : a = k
      · subst h
        cases h1 : dictLookup d1 a <;> simp [dictLookup, overridePair, h1]
      · cases h1 : dictLookup d1 a <;> simp [dictLookup, overridePair, h1, h, ih]

theorem dictLookup_filterNotIn {α : Type} (d0 d1 : PyDict α) (k : Node) :
    dictLookup (d1.filter (fun p => (dictLookup d0 p.1).isNone)) k =
      match dictLookup d0 k with
      | none => dictLookup d1 k
      | some _ => none := by
  induction d1 with
  | nil => cases h0 : dictLookup d0 k <;> simp [dictLookup]
  | cons p rest ih =>
      obtain ⟨a, w⟩ := p
      by_cases h : a = k
      · subst h
        cases h0 : dictLookup d0 a <;>
          simp [dictLookup, List.filter_cons, h0, ih]
      · cases h0 : dictLookup d0 a <;>
          cases h0' : dictLookup d0 k <;>
          simp [dictLookup, List.filter_cons, h0, h0', h, ih]

/-- Lookup in `dict(d0, **d1)`: the second dict's value wins on shared
keys, the first dict's value is used otherwise. -/
theorem dictLookup_pyDictMerge (d0 d1 : PyDict ℚ) (k : Node) :
    dictLookup (pyDictMerge d0 d1) k =
      match dictLookup d1 k with
      | some v => some v
      | none => dictLookup d0 k := by
  unfold pyDictMerge
  rw [dictLookup_append, dictLookup_mapOverride, dictLookup_filterNotIn]
  cases h0 : dictLookup d0 k <;> cases h1 : dictLookup d1 k <;> simp

/-! ## Helper lemmas: mapOpt -/

theorem mapOpt_length {α β : Type} {f : α → Option β} :
    ∀ {l : List α} {r : List β}, mapOpt f l = some r → r.length = l.length := by
  intro l
  induction l with
  | nil => intro r h; simp [mapOpt] at h; simp [← h]
  | cons a as ih =>
      intro r h
      simp only [mapOpt, Option.bind_eq_bind, Option.bind_eq_some] at h
      obtain ⟨b, hb, bs, hbs, hr⟩ := h
      simp only [Option.pure_def, Option.some.injEq] at hr
      subst hr
      simp [ih hbs]

theorem mapOpt_get {α β : Type} {f : α → Option β} :
    ∀ {l : List α} {r : List β}, mapOpt f l = some r →
      ∀ i a, l.get? i = some a → ∃ b, f a = some b ∧ r.get? i = some b := by
  intro l
  induction l with
  | nil => intro r _ i a ha; simp at ha
  | cons a0 as ih =>
      intro r h i a ha
      simp only [mapOpt, Option.bind_eq_bind, Option.bind_eq_some] at h
      obtain ⟨b, hb, bs, hbs, hr⟩ := h
      simp only [Option.pure_def, Option.some.injEq] at hr
      subst hr
      cases i with
      | zero =>
          simp only [List.get?_cons_zero, Option.some.injEq] at ha
          subst ha
          exact ⟨b, hb, rfl⟩
      | succ i =>
          simp only [List.get?_cons_succ] at ha ⊢
          exact ih hbs i a ha

theorem mapOpt_eq_none_of_mem {α β : Type} {f : α → Option β} {l : List α}
    {a : α} (ha : a ∈ l) (hf : f a = none) : mapOpt f l = none := by
  induction l with
  | nil => cases ha
  | cons a0 as ih =>
      rcases List.mem_cons.mp ha with h | h
      · subst h; simp [mapOpt, hf]
      · cases hb : f a0
        · simp [mapOpt, hb]
        · simp [mapOpt, hb, ih h]

theorem mapOpt_isSome {α β : Type} {f : α → Option β} {l : List α}
    (h : ∀ a ∈ l, (f a).isSome) : (mapOpt f l).isSome := by
  induction l with
  | nil => simp [mapOpt]
  | cons a0 as ih =>
      obtain ⟨b, hb⟩ := Option.isSome_iff_exists.mp (h a0 (List.mem_cons_self a0 as))
      obtain ⟨bs, hbs⟩ := Option.isSome_iff_exists.mp
        (ih (fun a ha => h a (List.mem_cons_of_mem a0 ha)))
      simp [mapOpt, hb, hbs]

/-! ## Helper lemmas: zip4 -/

theorem zip4_nil_left {α β γ δ : Type} (bs : List β) (cs : List γ)
    (ds : List δ) : zip4 ([] : List α) bs cs ds = [] := by
  cases bs <;> cases cs <;> cases ds <;> rfl

theorem zip4_get? {α β γ δ : Type} :
    ∀ (as : List α) (bs : List β) (cs : List γ) (ds : List δ) (i : ℕ)
      (a : α) (b : β) (c : γ) (d : δ),
      (zip4 as bs cs ds).get? i = some (a, b, c, d) ↔
        (as.get? i = some a ∧ bs.get? i = some b ∧
          cs.get? i = some c ∧ ds.get? i = some d) := by
  intro as
  induction as with
  | nil => intro bs cs ds i a b c d; simp [zip4_nil_left]
  | cons a0 as ih =>
      intro bs cs ds i a b c d
      cases bs with
      | nil => simp [zip4]
      | cons b0 bs =>
          cases cs with
          | nil => simp [zip4]
          | cons c0 cs =>
              cases ds with
              | nil => simp [zip4]
              | cons d0 ds =>
                  cases i with
                  | zero => simp [zip4]
                  | succ i =>
                      simp only [zip4, List.get?_cons_succ]
                      exact ih bs cs ds i a b c d

theorem zip4_length {α β γ δ : Type} :
    ∀ (as : List α) (bs : List β) (cs : List γ) (ds : List δ),
      (zip4 as bs cs ds).length =
        min as.length (min bs.length (min cs.length ds.length)) := by
  intro as
  induction as with
  | nil => intro bs cs ds; simp [zip4_nil_left]
  | cons a0 as ih =>
      intro bs cs ds
      cases bs with
      | nil => simp [zip4]
      | cons b0 bs =>
          cases cs with
          | nil => simp [zip4]
          | cons c0 cs =>
              cases ds with
              | nil => simp [zip4]
              | cons d0 ds =>
                  have := ih bs cs ds
                  simp only [zip4, List.length_cons, this]
                  omega

/-! ## Helper lemmas: the filter and derived labels -/

theorem sizeFilter_eq_some {sd : PyDict ℚ} {m : ℚ} :
    ∀ {ns : List Node} {l : List Node}, sizeFilter sd m ns = some l →
      l = ns.filter (fun n => sizePred sd m n) := by
  intro ns
  induction ns with
  | nil => intro l h; simp [sizeFilter] at h; subst h; simp
  | cons n ns ih =>
      intro l h
      simp only [sizeFilter, Option.bind_eq_bind, Option.bind_eq_some] at h
      obtain ⟨s, hs, rest, hrest, hl⟩ := h
      simp only [Option.pure_def, Option.some.injEq] at hl
      subst hl
      by_cases hm : m ≤ s <;>
        simp [List.filter_cons, sizePred, hs, hm, ih hrest]

theorem sizeFilter_isSome {sd : PyDict ℚ} {m : ℚ} {ns : List Node}
    (h : ∀ n ∈ ns, (dictLookup sd n).isSome) : (sizeFilter sd m ns).isSome := by
  induction ns with
  | nil => simp [sizeFilter]
  | cons n ns ih =>
      obtain ⟨s, hs⟩ := Option.isSome_iff_exists.mp (h n (List.mem_cons_self n ns))
      obtain ⟨rest, hrest⟩ := Option.isSome_iff_exists.mp
        (ih (fun a ha => h a (List.mem_cons_of_mem n ha)))
      simp [sizeFilter, hs, hrest]

theorem sizeFilter_eq_none {sd : PyDict ℚ} {m : ℚ} {ns : List Node} {n : Node}
    (hn : n ∈ ns) (h : dictLookup sd n = none) : sizeFilter sd m ns = none := by
  induction ns with
  | nil => cases hn
  | cons n0 ns ih =>
      rcases List.mem_cons.mp hn with h0 | h0
      · subst h0; simp [sizeFilter, h]
      · cases hs : dictLookup sd n0
        · simp [sizeFilter, hs]
        · simp [sizeFilter, hs, ih h0]

theorem labelDerive_eq_some {sd : PyDict ℚ} {ml : ℚ} :
    ∀ {ns : List Node} {l : PyDict String}, labelDerive sd ml ns = some l →
      l = (ns.filter (fun n => sizePred sd ml n)).map (fun n => (n, n)) := by
  intro ns
  induction ns with
  | nil => intro l h; simp [labelDerive] at h; subst h; simp
  | cons n ns ih =>
      intro l h
      simp only [labelDerive, Option.bind_eq_bind, Option.bind_eq_some] at h
      obtain ⟨s, hs, rest, hrest, hl⟩ := h
      simp only [Option.pure_def, Option.some.injEq] at hl
      subst hl
      by_cases hm : ml ≤ s <;>
        simp [List.filter_cons, sizePred, hs, hm, ih hrest]

/-! ## Helper lemmas: draw_nodes and the node loop -/

theorem draw_nodes_eq_some {node_list : List Node} {size_dict : PyDict ℚ}
    {add_labels : Bool} {label_dict : PyDict String} {color : NodeColorSpec}
    {f : ℚ} {font_color : String} {call : NodeDrawCall}
    (h : draw_nodes node_list size_dict add_labels label_dict color f
      font_color = some call) :
    ∃ sizes,
      mapOpt (fun n => (dictLookup size_dict n).map (fun s => s / f))
        node_list = some sizes ∧
      call = ⟨node_list, sizes, color, font_color,
        if add_labels then
          some (node_list.map (fun n => (n, (dictLookup label_dict n).getD "")))
        else none⟩ := by
  simp only [draw_nodes, Option.bind_eq_bind, Option.bind_eq_some] at h
  obtain ⟨sizes, hsizes, hcall⟩ := h
  simp only [Option.pure_def, Option.some.injEq] at hcall
  exact ⟨sizes, hsizes, hcall.symm⟩

theorem drawNodesLoop_length {node_colors : Option (PyDict String)}
    {add_labels : Bool} {f : ℚ} :
    ∀ {ts : List (List Node × PyDict String × String × PyDict ℚ)} {idx : ℕ}
      {calls : List NodeDrawCall},
      drawNodesLoop node_colors add_labels f ts idx = some calls →
      calls.length = ts.length := by
  intro ts
  induction ts with
  | nil => intro idx calls h; simp [drawNodesLoop] at h; simp [← h]
  | cons t rest ih =>
      intro idx calls h
      obtain ⟨nd, nl, fc, nsz⟩ := t
      simp only [drawNodesLoop, Option.bind_eq_bind, Option.bind_eq_some] at h
      obtain ⟨call, hcall, calls1, hcalls1, hcalls⟩ := h
      simp only [Option.pure_def, Option.some.injEq] at hcalls
      subst hcalls
      simp [ih hcalls1]

theorem drawNodesLoop_labels {node_colors : Option (PyDict String)}
    {add_labels : Bool} {f : ℚ} :
    ∀ {ts : List (List Node × PyDict String × String × PyDict ℚ)} {idx : ℕ}
      {calls : List NodeDrawCall},
      drawNodesLoop node_colors add_labels f ts idx = some calls →
      ∀ c ∈ calls, c.labels.isSome = add_labels := by
  intro ts
  induction ts with
  | nil =>
      intro idx calls h c hc
      simp [drawNodesLoop] at h
      subst h
      cases hc
  | cons t rest ih =>
      intro idx calls h c hc
      obtain ⟨nd, nl, fc, nsz⟩ := t
      simp only [drawNodesLoop, Option.bind_eq_bind, Option.bind_eq_some] at h
      obtain ⟨call, hcall, calls1, hcalls1, hcalls⟩ := h
      simp only [Option.pure_def, Option.some.injEq] at hcalls
      subst hcalls
      rcases List.mem_cons.mp hc with h0 | h0
      · subst h0
        obtain ⟨sizes, _, hcallEq⟩ := draw_nodes_eq_some hcall
        subst hcallEq
        cases add_labels <;> simp
      · exact ih hcalls1 c h0

/-! ## Helper lemmas: the filtered loop -/

theorem fgLoop_cons_core {lo : Option (List (Option (PyDict String)))}
    {ns0 : List Node} {sd0 : PyDict ℚ} {m0 ml0 : ℚ}
    {rest : List (List Node × PyDict ℚ × ℚ × ℚ)} {idx : ℕ}
    {ds : List (List Node)} {ls : List (PyDict String)}
    (h : fgLoop lo ((ns0, sd0, m0, ml0) :: rest) idx = some (ds, ls)) :
    ∃ draw lbl ds1 ls1,
      sizeFilter sd0 m0 ns0 = some draw ∧
      fgLoop lo rest (idx + 1) = some (ds1, ls1) ∧
      ds = draw :: ds1 ∧ ls = lbl :: ls1 ∧
      (lo = none → labelDerive sd0 ml0 ns0 = some lbl) ∧
      (∀ ll, lo = some ll → ll.get? idx = some none →
        labelDerive sd0 ml0 ns0 = some lbl) ∧
      (∀ ll d, lo = some ll → ll.get? idx = some (some d) → lbl = d) := by
  cases lo with
  | none =>
      simp only [fgLoop, Option.bind_eq_bind, Option.bind_eq_some,
        Option.pure_def, Option.some.injEq, Prod.mk.injEq] at h
      obtain ⟨draw, hdraw, lbl, hlbl, pr, hpr, hds, hls⟩ := h
      refine ⟨draw, lbl, pr.1, pr.2, hdraw, hpr, hds.symm, hls.symm,
        fun _ => hlbl, ?_, ?_⟩
      · intro ll hll
        cases hll
      · intro ll d hll
        cases hll
  | some ll =>
      cases hidx : ll.get? idx with
      | none =>
          simp only [fgLoop, Option.bind_eq_bind, hidx, Option.none_bind,
            Option.bind_eq_some] at h
          obtain ⟨draw, _, hfalse⟩ := h
          cases hfalse
      | some od =>
          cases od with
          | none =>
              simp only [fgLoop, Option.bind_eq_bind, hidx,
                Option.bind_eq_some, Option.pure_def, Option.some.injEq,
                Prod.mk.injEq] at h
              obtain ⟨draw, hdraw, lbl, hlbl, pr, hpr, hds, hls⟩ := h
              refine ⟨draw, lbl, pr.1, pr.2, hdraw, hpr, hds.symm, hls.symm,
                ?_, ?_, ?_⟩
              · intro hn
                cases hn
              · intro ll2 hll2 _
                exact hlbl
              · intro ll2 d hll2 hd
                injection hll2 with he
                subst he
                rw [hidx] at hd
                simp at hd
          | some d =>
              simp only [fgLoop, Option.bind_eq_bind, hidx, Option.some_bind,
                Option.bind_eq_some, Option.pure_def, Option.some.injEq,
                Prod.mk.injEq] at h
              obtain ⟨draw, hdraw, pr, hpr, hds, hls⟩ := h
              refine ⟨draw, d, pr.1, pr.2, hdraw, hpr, hds.symm, hls.symm,
                ?_, ?_, ?_⟩
              · intro hn
                cases hn
              · intro ll2 hll2 hd2
                injection hll2 with he
                subst he
                rw [hidx] at hd2
                simp at hd2
              · intro ll2 d2 hll2 hd2
                injection hll2 with he
                subst he
                rw [hidx] at hd2
                simp only [Option.some.injEq] at hd2
                exact hd2

theorem fgLoop_spec {lo : Option (List (Option (PyDict String)))} :
    ∀ {ts : List (List Node × PyDict ℚ × ℚ × ℚ)} {idx : ℕ}
      {ds : List (List Node)} {ls : List (PyDict String)},
      fgLoop lo ts idx = some (ds, ls) →
      ds.length = ts.length ∧ ls.length = ts.length ∧
      ∀ i ns sd m ml, ts.get? i = some (ns, sd, m, ml) →
        ds.get? i = some (ns.filter (fun n => sizePred sd m n)) ∧
        (lo = none →
          ls.get? i = some ((ns.filter (fun n => sizePred sd ml n)).map
            (fun n => (n, n)))) ∧
        (∀ ll, lo = some ll →
          (∀ d, ll.get? (idx + i) = some (some d) → ls.get? i = some d) ∧
          (ll.get? (idx + i) = some none →
            ls.get? i = some ((ns.filter (fun n => sizePred sd ml n)).map
              (fun n => (n, n))))) := by
  intro ts
  induction ts with
  | nil =>
      intro idx ds ls h
      simp only [fgLoop, Option.some.injEq, Prod.mk.injEq] at h
      obtain ⟨hd, hl⟩ := h
      subst hd; subst hl
      refine ⟨rfl, rfl, ?_⟩
      intro i ns sd m ml hi
      simp at hi
  | cons t rest ih =>
      intro idx ds ls h
      obtain ⟨ns0, sd0, m0, ml0⟩ := t
      obtain ⟨draw, lbl, ds1, ls1, hdraw, hrec, hds, hls, hn, hsn, hsd⟩ :=
        fgLoop_cons_core h
      subst hds; subst hls
      obtain ⟨hlen1, hlen2, hchar⟩ := ih hrec
      refine ⟨by simp [hlen1], by simp [hlen2], ?_⟩
      intro i ns sd m ml hi
      cases i with
      | zero =>
          simp only [List.get?_cons_zero, Option.some.injEq, Prod.mk.injEq] at hi
          obtain ⟨h1, h2, h3, h4⟩ := hi
          subst h1; subst h2; subst h3; subst h4
          refine ⟨by simp [sizeFilter_eq_some hdraw], ?_, ?_⟩
          · intro hnone
            simp [labelDerive_eq_some (hn hnone)]
          · intro ll hll
            constructor
            · intro d hd
              simp only [Nat.add_zero] at hd
              simp [hsd ll d hll hd]
            · intro hd
              simp only [Nat.add_zero] at hd
              simp [labelDerive_eq_some (hsn ll hll hd)]
      | succ i =>
          simp only [List.get?_cons_succ] at hi
          have hmain := hchar i ns sd m ml hi
          have hidx : idx + (i + 1) = (idx + 1) + i := by omega
          refine ⟨by simpa using hmain.1, ?_, ?_⟩
          · intro hnone
            simpa using hmain.2.1 hnone
          · intro ll hll
            have := hmain.2.2 ll hll
            rw [hidx]
            simpa using this


/-! ## Helper lemmas: draw_graph -/

theorem draw_graph_eq_some {G : PyGraph} {dls : List (List Node)}
    {lls : List (PyDict String)} {szs : List (PyDict ℚ)}
    {fcs : List String} {ax : Option Unit} {al dm : Bool}
    {nc : Option (PyDict String)} {f ef : ℚ} {ce : Bool}
    {leg : Option (PyDict String)} {res : DrawResult}
    (h : draw_graph G dls lls szs fcs ax al dm nc f ef ce leg = some res) :
    ∃ calls d0 d1 nsz dl0 dl1,
      drawNodesLoop nc al f (zip4 dls lls fcs szs) 0 = some calls ∧
      szs.get? 0 = some d0 ∧ szs.get? 1 = some d1 ∧
      mapOpt (fun n => (dictLookup (pyDictMerge d0 d1) n).map
        (fun s => s / f)) G.nodes = some nsz ∧
      dls.get? 0 = some dl0 ∧ dls.get? 1 = some dl1 ∧
      res = ⟨calls,
        edgeCallList G dl0 dl1 ef nc (if dm then "#A47FFF" else "k"),
        if ce then some nsz else none,
        leg.isSome && ax.isNone⟩ := by
  simp only [draw_graph, Option.bind_eq_bind, Option.bind_eq_some,
    Option.pure_def, Option.some.injEq] at h
  obtain ⟨calls, hcalls, d0, h0, d1, h1, nsz, hnsz, dl0, hdl0, dl1, hdl1, hres⟩ := h
  exact ⟨calls, d0, d1, nsz, dl0, dl1, hcalls, h0, h1, hnsz, hdl0, hdl1, hres.symm⟩

theorem mem_edgeCallList {G : PyGraph} {dl0 dl1 : List Node} {ef : ℚ}
    {nc : Option (PyDict String)} {c : String} {ec : EdgeDrawCall} :
    ec ∈ edgeCallList G dl0 dl1 ef nc c ↔
      ∃ n1 ∈ dl0, ∃ n2 ∈ dl1, ∃ w, G.weight n1 n2 = some w ∧
        ec = ⟨n1, n2, w / ef, edgeCallColor nc c n1 n2⟩ := by
  simp only [edgeCallList, List.mem_flatMap, List.mem_filterMap,
    Option.map_eq_some']
  constructor
  · rintro ⟨n1, hn1, n2, ⟨hn2, w, hw, hec⟩⟩
    exact ⟨n1, hn1, n2, hn2, w, hw, hec.symm⟩
  · rintro ⟨n1, hn1, n2, hn2, w, hw, hec⟩
    exact ⟨n1, hn1, n2, hn2, w, hw, hec.symm⟩

/-- The pairs drawn by the edge loop are exactly the `has_edge` pairs
of the product of the first two draw lists. -/
theorem edgeCallList_pairs {G : PyGraph} {dl0 dl1 : List Node} {ef : ℚ}
    {nc : Option (PyDict String)} {c : String} (a b : Node) :
    (∃ ec ∈ edgeCallList G dl0 dl1 ef nc c,
        ec.node1 = a ∧ ec.node2 = b) ↔
      (a ∈ dl0 ∧ b ∈ dl1 ∧ G.hasEdge a b = true) := by
  constructor
  · rintro ⟨ec, hec, ha, hb⟩
    obtain ⟨n1, hn1, n2, hn2, w, hw, hecEq⟩ := mem_edgeCallList.mp hec
    subst hecEq
    simp only at ha hb
    subst ha; subst hb
    exact ⟨hn1, hn2, by simp [PyGraph.hasEdge, hw]⟩
  · rintro ⟨ha, hb, he⟩
    obtain ⟨w, hw⟩ := Option.isSome_iff_exists.mp (by simpa [PyGraph.hasEdge] using he)
    exact ⟨⟨a, b, w / ef, edgeCallColor nc c a b⟩,
      mem_edgeCallList.mpr ⟨a, ha, b, hb, w, hw, rfl⟩, rfl, rfl⟩

/-! ## Helper lemmas: the partition -/

theorem splitByGroups_eq (groups : List Node) :
    ∀ ns : List Node,
      splitByGroups groups ns =
        (ns.filter (fun n => decide (n ∈ groups)),
         ns.filter (fun n => !decide (n ∈ groups))) := by
  intro ns
  induction ns with
  | nil => rfl
  | cons n ns ih =>
      by_cases h : n ∈ groups <;>
        simp [splitByGroups, ih, List.filter_cons, h]

/-! ## Claims -/

/-- C2: `prepare_drawing` partitions `G.nodes()` by membership in
`groups`: the left list is exactly the subsequence of members, the
right list exactly the subsequence of non-members, and every node of
the graph lands in exactly one of the two lists. -/
theorem claim_C2_partition (G : PyGraph) (groups : List Node)
    (springLayout : PyGraph → ℕ → Node → ℚ × ℚ) (random_seed : ℕ) :
    (prepare_drawing G groups springLayout random_seed).2.1 =
      G.nodes.filter (fun n => decide (n ∈ groups)) ∧
    (prepare_drawing G groups springLayout random_seed).2.2 =
      G.nodes.filter (fun n => !decide (n ∈ groups)) ∧
    ∀ n ∈ G.nodes,
      (n ∈ (prepare_drawing G groups springLayout random_seed).2.1 ∧
        n ∉ (prepare_drawing G groups springLayout random_seed).2.2) ∨
      (n ∈ (prepare_drawing G groups springLayout random_seed).2.2 ∧
        n ∉ (prepare_drawing G groups springLayout random_seed).2.1) := by
  have hsplit := splitByGroups_eq groups G.nodes
  refine ⟨by simp [prepare_drawing, hsplit], by simp [prepare_drawing, hsplit], ?_⟩
  intro n hn
  by_cases h : n ∈ groups
  · left
    constructor
    · simp [prepare_drawing, hsplit, List.mem_filter, hn, h]
    · simp [prepare_drawing, hsplit, List.mem_filter, hn, h]
  · right
    constructor
    · simp [prepare_drawing, hsplit, List.mem_filter, hn, h]
    · simp [prepare_drawing, hsplit, List.mem_filter, hn, h]

/-- Witness for C2 at a concrete graph: node a of `exGraph` falls in
exactly one of the two lists produced with `groups = [b]`. -/
theorem claim_C2_witness :
    ("a" ∈ (prepare_drawing exGraph ["b"] exLayout 42).2.1 ∧
      "a" ∉ (prepare_drawing exGraph ["b"] exLayout 42).2.2) ∨
    ("a" ∈ (prepare_drawing exGraph ["b"] exLayout 42).2.2 ∧
      "a" ∉ (prepare_drawing exGraph ["b"] exLayout 42).2.1) :=
  (claim_C2_partition exGraph ["b"] exLayout 42).2.2 "a" (by decide)

/-- C10: `main` returns the empty tuple (modelled as `Unit`) and does
nothing else: it is a pure constant. -/
theorem claim_C10_main : DrawGraphScript.main = () := rfl

/-- C1: each draw list that `draw_graph_filtered` passes on to
`draw_graph` is exactly the corresponding `nodes_list` entry filtered
by `_sizes[node] >= _min_size`; `List.filter` keeps the original
relative order. -/
theorem claim_C1_filtered_draw_lists
    {nodes_list : List (List Node)} {szs : List (PyDict ℚ)}
    {mins mls : List ℚ} {lo : Option (List (Option (PyDict String)))}
    {dls : List (List Node)} {lls : List (PyDict String)}
    (h : filteredDrawLabels nodes_list szs mins mls lo = some (dls, lls)) :
    (∀ (G : PyGraph) fcs ax al dm nc (f ef : ℚ) ce leg,
      draw_graph_filtered G nodes_list szs mins mls lo fcs ax al dm nc
          f ef ce leg =
        draw_graph G dls lls szs fcs ax al dm nc f ef ce leg) ∧
    ∀ i ns sd m ml,
      nodes_list.get? i = some ns → szs.get? i = some sd →
      mins.get? i = some m → mls.get? i = some ml →
      dls.get? i = some (ns.filter (fun n => sizePred sd m n)) := by
  constructor
  · intro G fcs ax al dm nc f ef ce leg
    simp only [draw_graph_filtered, h]
  · have h2 : fgLoop lo (zip4 nodes_list szs mins mls) 0 = some (dls, lls) := h
    obtain ⟨_, _, hchar⟩ := fgLoop_spec h2
    intro i ns sd m ml h1a h1b h1c h1d
    exact (hchar i ns sd m ml
      ((zip4_get? nodes_list szs mins mls i ns sd m ml).mpr
        ⟨h1a, h1b, h1c, h1d⟩)).1

/-- Witness for C1 at a concrete call: sizes a=4, c=1 against
threshold 2 keep only a in the first draw list. -/
theorem claim_C1_witness :
    ([["a"], ["b"]] : List (List Node)).get? 0 =
      some (["a", "c"].filter
        (fun n => sizePred [("a", 4), ("c", 1)] 2 n)) ∧
    (["a", "c"].filter (fun n => sizePred [("a", 4), ("c", 1)] 2 n)) =
      ["a"] := by
  constructor
  · exact (@claim_C1_filtered_draw_lists
      [["a", "c"], ["b"]] [[("a", 4), ("c", 1)], [("b", 10)]]
      [2, 2] [3, 20] none [["a"], ["b"]] [[("a", "a")], []]
      (by decide)).2 0 ["a", "c"] [("a", 4), ("c", 1)] 2 3
      rfl rfl rfl rfl
  · decide

/-- C6: the i-th label dict `draw_graph_filtered` passes to
`draw_graph` is derived from the label-size threshold — it maps
exactly the nodes of `nodes_list[i]` whose size is at least
`min_sizes_labels[i]` to themselves — when `nodes_labels_list` is
`None` or its i-th entry is; a caller-supplied i-th dict is passed
through unchanged. -/
theorem claim_C6_label_dicts
    {nodes_list : List (List Node)} {szs : List (PyDict ℚ)}
    {mins mls : List ℚ} {lo : Option (List (Option (PyDict String)))}
    {dls : List (List Node)} {lls : List (PyDict String)}
    (h : filteredDrawLabels nodes_list szs mins mls lo = some (dls, lls)) :
    ∀ i ns sd m ml,
      nodes_list.get? i = some ns → szs.get? i = some sd →
      mins.get? i = some m → mls.get? i = some ml →
      (lo = none →
        lls.get? i = some ((ns.filter (fun n => sizePred sd ml n)).map
          (fun n => (n, n)))) ∧
      (∀ ll, lo = some ll →
        (ll.get? i = some none →
          lls.get? i = some ((ns.filter (fun n => sizePred sd ml n)).map
            (fun n => (n, n)))) ∧
        (∀ d, ll.get? i = some (some d) → lls.get? i = some d)) := by
  have h2 : fgLoop lo (zip4 nodes_list szs mins mls) 0 = some (dls, lls) := h
  obtain ⟨_, _, hchar⟩ := fgLoop_spec h2
  intro i ns sd m ml h1a h1b h1c h1d
  have hmain := hchar i ns sd m ml
    ((zip4_get? nodes_list szs mins mls i ns sd m ml).mpr
      ⟨h1a, h1b, h1c, h1d⟩)
  refine ⟨hmain.2.1, ?_⟩
  intro ll hll
  have hsome := hmain.2.2 ll hll
  constructor
  · intro hd
    exact hsome.2 (by simpa using hd)
  · intro d hd
    exact hsome.1 d (by simpa using hd)

/-- Witness for C6 at a concrete call with a supplied first label
dict and a None second entry: the first is passed through unchanged,
the second is derived from the label threshold. -/
theorem claim_C6_witness :
    ([[("z", "Z")], [("b", "b")]] : List (PyDict String)).get? 0 =
      some [("z", "Z")] ∧
    ([[("z", "Z")], [("b", "b")]] : List (PyDict String)).get? 1 =
      some ((["b"].filter (fun n => sizePred [("b", 10)] 5 n)).map
        (fun n => (n, n))) := by
  have h := @claim_C6_label_dicts
    [["a", "c"], ["b"]] [[("a", 4), ("c", 1)], [("b", 10)]]
    [2, 2] [3, 5] (some [some [("z", "Z")], none])
    [["a"], ["b"]] [[("z", "Z")], [("b", "b")]] (by decide)
  constructor
  · exact ((h 0 ["a", "c"] [("a", 4), ("c", 1)] 2 3 rfl rfl rfl rfl).2
      [some [("z", "Z")], none] rfl).2 [("z", "Z")] rfl
  · exact ((h 1 ["b"] [("b", 10)] 2 5 rfl rfl rfl rfl).2
      [some [("z", "Z")], none] rfl).1 rfl

theorem fgLoop_eq_none {lo : Option (List (Option (PyDict String)))} :
    ∀ {ts : List (List Node × PyDict ℚ × ℚ × ℚ)} {idx i : ℕ}
      {ns : List Node} {sd : PyDict ℚ} {m ml : ℚ},
      ts.get? i = some (ns, sd, m, ml) → sizeFilter sd m ns = none →
      fgLoop lo ts idx = none := by
  intro ts
  induction ts with
  | nil => intro idx i ns sd m ml hi; simp at hi
  | cons t rest ih =>
      intro idx i ns sd m ml hi hnone
      obtain ⟨ns0, sd0, m0, ml0⟩ := t
      cases i with
      | zero =>
          simp only [List.get?_cons_zero, Option.some.injEq, Prod.mk.injEq] at hi
          obtain ⟨h1, h2, h3, h4⟩ := hi
          subst h1; subst h2; subst h3; subst h4
          cases hfg : fgLoop lo ((ns0, sd0, m0, ml0) :: rest) idx with
          | none => rfl
          | some pr =>
              obtain ⟨pr1, pr2⟩ := pr
              obtain ⟨draw, lbl, ds1, ls1, hdraw, _⟩ := fgLoop_cons_core hfg
              rw [hnone] at hdraw
              cases hdraw
      | succ i =>
          simp only [List.get?_cons_succ] at hi
          cases hfg : fgLoop lo ((ns0, sd0, m0, ml0) :: rest) idx with
          | none => rfl
          | some pr =>
              obtain ⟨pr1, pr2⟩ := pr
              obtain ⟨draw, lbl, ds1, ls1, _, hrec, _⟩ := fgLoop_cons_core hfg
              rw [ih hi hnone] at hrec
              cases hrec

/-- C3: dictionary lookups without a default raise on a missing key:
`draw_nodes` fails when a node of `node_list` is absent from
`size_dict`, and `draw_graph_filtered` fails when a node of
`nodes_list[i]` is absent from `nodes_sizes_list[i]`; lookups with a
default — per-node labels (and per-node colors, built with
`.get(node, "grey")` inside `groupColor`) — never fail: `draw_nodes`
succeeds for any label dict once sizes are present, missing label
keys falling back to the empty string. -/
theorem claim_C3_lookup_errors :
    (∀ (node_list : List Node) (size_dict : PyDict ℚ) (al : Bool)
        (ld : PyDict String) (color : NodeColorSpec) (f : ℚ) (fc : String)
        (n : Node), n ∈ node_list → dictLookup size_dict n = none →
        draw_nodes node_list size_dict al ld color f fc = none) ∧
    (∀ (G : PyGraph) (nodes_list : List (List Node))
        (szs : List (PyDict ℚ)) (mins mls : List ℚ)
        (lo : Option (List (Option (PyDict String))))
        fcs ax al dm nc (f ef : ℚ) ce leg
        (i : ℕ) (ns : List Node) (sd : PyDict ℚ) (m ml : ℚ) (n : Node),
        nodes_list.get? i = some ns → szs.get? i = some sd →
        mins.get? i = some m → mls.get? i = some ml →
        n ∈ ns → dictLookup sd n = none →
        draw_graph_filtered G nodes_list szs mins mls lo fcs ax al dm nc
          f ef ce leg = none) ∧
    (∀ (node_list : List Node) (size_dict : PyDict ℚ) (al : Bool)
        (ld : PyDict String) (color : NodeColorSpec) (f : ℚ) (fc : String),
        (∀ n ∈ node_list, (dictLookup size_dict n).isSome) →
        (draw_nodes node_list size_dict al ld color f fc).isSome) ∧
    (∀ (node_list : List Node) (size_dict : PyDict ℚ)
        (ld : PyDict String) (color : NodeColorSpec) (f : ℚ) (fc : String)
        (call : NodeDrawCall),
        draw_nodes node_list size_dict true ld color f fc = some call →
        call.labels =
          some (node_list.map (fun n => (n, (dictLookup ld n).getD "")))) := by
  refine ⟨?_, ?_, ?_, ?_⟩
  · intro node_list size_dict al ld color f fc n hn hmiss
    have : mapOpt (fun n => (dictLookup size_dict n).map (fun s => s / f))
        node_list = none :=
      mapOpt_eq_none_of_mem hn (by simp [hmiss])
    simp [draw_nodes, this]
  · intro G nodes_list szs mins mls lo fcs ax al dm nc f ef ce leg
      i ns sd m ml n h1 h2 h3 h4 hn hmiss
    have hfg : fgLoop lo (zip4 nodes_list szs mins mls) 0 = none :=
      fgLoop_eq_none
        ((zip4_get? nodes_list szs mins mls i ns sd m ml).mpr
          ⟨h1, h2, h3, h4⟩)
        (sizeFilter_eq_none hn hmiss)
    have hfl : filteredDrawLabels nodes_list szs mins mls lo = none := hfg
    simp [draw_graph_filtered, hfl]
  · intro node_list size_dict al ld color f fc hall
    obtain ⟨sizes, hsizes⟩ := Option.isSome_iff_exists.mp
      (mapOpt_isSome (f := fun n => (dictLookup size_dict n).map
        (fun s => s / f)) (fun n hn => by
          obtain ⟨s, hs⟩ := Option.isSome_iff_exists.mp (hall n hn)
          simp [hs]))
    simp [draw_nodes, hsizes]
  · intro node_list size_dict ld color f fc call h
    obtain ⟨sizes, _, hcall⟩ := draw_nodes_eq_some h
    subst hcall
    simp

/-- Witness for C3: a concrete failing `draw_nodes` call (node x has
no size). -/
theorem claim_C3_witness :
    draw_nodes ["x"] [] false [] (NodeColorSpec.single "C0") 1 "k" = none :=
  claim_C3_lookup_errors.1 ["x"] [] false [] (NodeColorSpec.single "C0") 1 "k"
    "x" (by decide) (by decide)

/-- C4: the visual encoding is proportional: every marker size handed
to the node-draw call is the node's recorded size divided by
`node_size_reduction_factor`, and every drawn edge's line width is
its `weight` attribute divided by `edge_linewidth_reduction_factor`. -/
theorem claim_C4_proportional_encoding :
    (∀ (node_list : List Node) (size_dict : PyDict ℚ) (al : Bool)
        (ld : PyDict String) (color : NodeColorSpec) (f : ℚ) (fc : String)
        (call : NodeDrawCall) (i : ℕ) (n : Node) (s : ℚ),
        draw_nodes node_list size_dict al ld color f fc = some call →
        node_list.get? i = some n → dictLookup size_dict n = some s →
        call.sizes.get? i = some (s / f)) ∧
    (∀ (G : PyGraph) dls lls szs fcs ax al dm nc (f ef : ℚ) ce leg
        (res : DrawResult) (ec : EdgeDrawCall),
        draw_graph G dls lls szs fcs ax al dm nc f ef ce leg = some res →
        ec ∈ res.edgeCalls →
        ∃ w, G.weight ec.node1 ec.node2 = some w ∧ ec.width = w / ef) := by
  constructor
  · intro node_list size_dict al ld color f fc call i n s h hi hs
    obtain ⟨sizes, hsizes, hcall⟩ := draw_nodes_eq_some h
    subst hcall
    obtain ⟨b, hb, hget⟩ := mapOpt_get hsizes i n hi
    rw [hs] at hb
    simp only [Option.map_some', Option.some.injEq] at hb
    subst hb
    exact hget
  · intro G dls lls szs fcs ax al dm nc f ef ce leg res ec h hec
    obtain ⟨calls, d0, d1, nsz, dl0, dl1, _, _, _, _, _, _, hres⟩ :=
      draw_graph_eq_some h
    subst hres
    simp only at hec
    obtain ⟨n1, _, n2, _, w, hw, hecEq⟩ := mem_edgeCallList.mp hec
    subst hecEq
    exact ⟨w, hw, rfl⟩

/-- Witness for C4: size 4 with reduction factor 2 yields marker size
4 / 2 in a concrete `draw_nodes` call. -/
theorem claim_C4_witness :
    (NodeDrawCall.sizes ⟨["a", "b"], [4 / 2, 10 / 2],
      NodeColorSpec.single "C0", "w", none⟩).get? 0 = some (4 / 2 : ℚ) :=
  claim_C4_proportional_encoding.1 ["a", "b"] [("a", 4), ("b", 10)] false []
    (NodeColorSpec.single "C0") 2 "w"
    ⟨["a", "b"], [4 / 2, 10 / 2], NodeColorSpec.single "C0", "w", none⟩ 0 "a" 4
    rfl rfl rfl

/-- Counterexample to C5 as stated: a call with `legend_labels`
provided but an axes object passed in (`ax` not `None`) succeeds yet
draws no legend, because line 179 also requires `no_ax_input`. -/
theorem claim_C5_counterexample :
    (draw_graph exEmptyGraph [[], []] [[], []] [[], []]
        defaultNodesFontColors (some ()) false true none 1 1 true
        (some [("g", "red")])).map DrawResult.legendDrawn = some false ∧
    (some [("g", "red")] : Option (PyDict String)).isSome = true := by
  exact ⟨rfl, rfl⟩

/-- C5 amended: node labels are drawn exactly when `add_labels` is
true; the legend is drawn exactly when `legend_labels` is provided
AND no axes object was passed in (`ax` is `None`). -/
theorem claim_C5_amended (G : PyGraph) (dls : List (List Node))
    (lls : List (PyDict String)) (szs : List (PyDict ℚ))
    (fcs : List String) (ax : Option Unit) (al dm : Bool)
    (nc : Option (PyDict String)) (f ef : ℚ) (ce : Bool)
    (leg : Option (PyDict String)) (res : DrawResult)
    (h : draw_graph G dls lls szs fcs ax al dm nc f ef ce leg = some res) :
    (∀ call ∈ res.nodeCalls, call.labels.isSome = al) ∧
    res.legendDrawn = (leg.isSome && ax.isNone) := by
  obtain ⟨calls, d0, d1, nsz, dl0, dl1, hcalls, _, _, _, _, _, hres⟩ :=
    draw_graph_eq_some h
  subst hres
  exact ⟨fun call hc => drawNodesLoop_labels hcalls call hc, rfl⟩

/-- Witness for C5 amended: the same call without an axes object does
draw the legend. -/
theorem claim_C5_witness :
    (DrawResult.legendDrawn
      ⟨[⟨[], [], NodeColorSpec.single "C0", "#CEECFF", none⟩,
        ⟨[], [], NodeColorSpec.single "C1", "#FFD0FD", none⟩],
        [], some [], true⟩) =
      ((some [("g", "red")] : Option (PyDict String)).isSome &&
        (none : Option Unit).isNone) :=
  (claim_C5_amended exEmptyGraph [[], []] [[], []] [[], []]
    defaultNodesFontColors none false true none 1 1 true
    (some [("g", "red")])
    ⟨[⟨[], [], NodeColorSpec.single "C0", "#CEECFF", none⟩,
      ⟨[], [], NodeColorSpec.single "C1", "#FFD0FD", none⟩],
      [], some [], true⟩ rfl).2

/-- C7: `draw_graph` builds `dict(nodes_sizes_list[0],
**nodes_sizes_list[1])` — the second dict overriding the first on
shared keys — and looks every node of `G` up in it unconditionally,
so it fails with a lookup error whenever some node of `G` is missing
from both size dicts, for any `curved_edges` value and any draw
lists. -/
theorem claim_C7_merged_sizes_raise (G : PyGraph)
    (dls : List (List Node)) (lls : List (PyDict String))
    (szs : List (PyDict ℚ)) (fcs : List String) (ax : Option Unit)
    (al dm : Bool) (nc : Option (PyDict String)) (f ef : ℚ) (ce : Bool)
    (leg : Option (PyDict String)) (d0 d1 : PyDict ℚ) (n : Node)
    (h0 : szs.get? 0 = some d0) (h1 : szs.get? 1 = some d1)
    (hn : n ∈ G.nodes) (hm0 : dictLookup d0 n = none)
    (hm1 : dictLookup d1 n = none) :
    draw_graph G dls lls szs fcs ax al dm nc f ef ce leg = none ∧
    ∀ k, dictLookup (pyDictMerge d0 d1) k =
      match dictLookup d1 k with
      | some v => some v
      | none => dictLookup d0 k := by
  refine ⟨?_, fun k => dictLookup_pyDictMerge d0 d1 k⟩
  have hmerge : dictLookup (pyDictMerge d0 d1) n = none := by
    rw [dictLookup_pyDictMerge, hm1, hm0]
  have hmap : mapOpt (fun n => (dictLookup (pyDictMerge d0 d1) n).map
      (fun s => s / f)) G.nodes = none :=
    mapOpt_eq_none_of_mem hn (by simp [hmerge])
  cases hdg : draw_graph G dls lls szs fcs ax al dm nc f ef ce leg with
  | none => rfl
  | some res =>
      obtain ⟨calls, d0', d1', nsz, dl0, dl1, _, h0', h1', hnsz, _⟩ :=
        draw_graph_eq_some hdg
      rw [h0] at h0'
      rw [h1] at h1'
      injection h0' with he0
      injection h1' with he1
      subst he0; subst he1
      rw [hmap] at hnsz
      cases hnsz

/-- Witness for C7: a graph with node x absent from both (empty) size
dicts makes `draw_graph` fail even with `curved_edges = false` and
empty draw lists. -/
theorem claim_C7_witness :
    draw_graph ⟨["x"], fun _ _ => none⟩ [[], []] [[], []] [[], []]
      defaultNodesFontColors none false true none 1 1 false none = none :=
  (claim_C7_merged_sizes_raise ⟨["x"], fun _ _ => none⟩ [[], []] [[], []]
    [[], []] defaultNodesFontColors none false true none 1 1 false none
    [] [] "x" rfl rfl (by decide) rfl rfl).1

/-- C8: `draw_graph` issues an edge-draw call exactly for the ordered
pairs of the product of the first two draw lists that satisfy
`G.has_edge`; pairs with an endpoint outside both draw lists are
never drawn, and, when the two draw lists are disjoint, no edge
between two nodes of the same list is drawn. -/
theorem claim_C8_edge_pairs (G : PyGraph) (dls : List (List Node))
    (lls : List (PyDict String)) (szs : List (PyDict ℚ))
    (fcs : List String) (ax : Option Unit) (al dm : Bool)
    (nc : Option (PyDict String)) (f ef : ℚ) (ce : Bool)
    (leg : Option (PyDict String)) (res : DrawResult)
    (dl0 dl1 : List Node)
    (h : draw_graph G dls lls szs fcs ax al dm nc f ef ce leg = some res)
    (h0 : dls.get? 0 = some dl0) (h1 : dls.get? 1 = some dl1) :
    (∀ a b, (∃ ec ∈ res.edgeCalls, ec.node1 = a ∧ ec.node2 = b) ↔
      (a ∈ dl0 ∧ b ∈ dl1 ∧ G.hasEdge a b = true)) ∧
    (∀ a b, ((a ∉ dl0 ∧ a ∉ dl1) ∨ (b ∉ dl0 ∧ b ∉ dl1)) →
      ¬ ∃ ec ∈ res.edgeCalls, ec.node1 = a ∧ ec.node2 = b) ∧
    (dl0.Disjoint dl1 →
      ∀ a b, ((a ∈ dl0 ∧ b ∈ dl0) ∨ (a ∈ dl1 ∧ b ∈ dl1)) →
      ¬ ∃ ec ∈ res.edgeCalls, ec.node1 = a ∧ ec.node2 = b) := by
  obtain ⟨calls, d0, d1, nsz, dl0', dl1', _, _, _, _, h0', h1', hres⟩ :=
    draw_graph_eq_some h
  rw [h0] at h0'
  rw [h1] at h1'
  injection h0' with he0
  injection h1' with he1
  subst he0; subst he1
  subst hres
  have hiff : ∀ a b : Node,
      (∃ ec ∈ edgeCallList G dl0 dl1 ef nc (if dm then "#A47FFF" else "k"),
        ec.node1 = a ∧ ec.node2 = b) ↔
      (a ∈ dl0 ∧ b ∈ dl1 ∧ G.hasEdge a b = true) :=
    fun a b => edgeCallList_pairs a b
  refine ⟨hiff, ?_, ?_⟩
  · intro a b hcase hex
    obtain ⟨ha, hb, _⟩ := (hiff a b).mp hex
    rcases hcase with ⟨ha0, _⟩ | ⟨_, hb1⟩
    · exact ha0 ha
    · exact hb1 hb
  · intro hdisj a b hcase hex
    obtain ⟨ha, hb, _⟩ := (hiff a b).mp hex
    rcases hcase with ⟨_, hb0⟩ | ⟨ha1, _⟩
    · exact hdisj hb0 hb
    · exact hdisj ha ha1

/-- Witness for C8: in a concrete call on `exGraph`, the pair (a, b)
is drawn because a is in the first draw list, b in the second, and
the edge exists. -/
theorem claim_C8_witness :
    ∃ ec ∈ DrawResult.edgeCalls
      ⟨[⟨["a"], [4 / 1], NodeColorSpec.single "C0", "#CEECFF", none⟩,
        ⟨["b", "c"], [10 / 1, 2 / 1], NodeColorSpec.single "C1",
          "#FFD0FD", none⟩],
        [⟨"a", "b", 6 / 1, "#A47FFF"⟩], none, false⟩,
      ec.node1 = "a" ∧ ec.node2 = "b" :=
  ((claim_C8_edge_pairs exGraph [["a"], ["b", "c"]] [[], []]
    [[("a", 4)], [("b", 10), ("c", 2)]] defaultNodesFontColors none false
    true none 1 1 false none
    ⟨[⟨["a"], [4 / 1], NodeColorSpec.single "C0", "#CEECFF", none⟩,
      ⟨["b", "c"], [10 / 1, 2 / 1], NodeColorSpec.single "C1",
        "#FFD0FD", none⟩],
      [⟨"a", "b", 6 / 1, "#A47FFF"⟩], none, false⟩
    ["a"] ["b", "c"] rfl rfl rfl).1 "a" "b").mpr
    ⟨by decide, by decide, by decide⟩

/-- C9: the number of node groups `draw_graph` draws is the minimum
of the lengths of `nodes_draw_list`, `nodes_labels_list`,
`nodes_font_colors` and `nodes_sizes_list` (the `zip` truncates
silently); with the default `nodes_font_colors` of length two, at
most two groups are drawn. -/
theorem claim_C9_group_count (G : PyGraph) (dls : List (List Node))
    (lls : List (PyDict String)) (szs : List (PyDict ℚ))
    (fcs : List String) (ax : Option Unit) (al dm : Bool)
    (nc : Option (PyDict String)) (f ef : ℚ) (ce : Bool)
    (leg : Option (PyDict String)) (res : DrawResult)
    (h : draw_graph G dls lls szs fcs ax al dm nc f ef ce leg = some res) :
    res.nodeCalls.length =
      min dls.length (min lls.length (min fcs.length szs.length)) ∧
    (fcs = defaultNodesFontColors → res.nodeCalls.length ≤ 2) := by
  obtain ⟨calls, d0, d1, nsz, dl0, dl1, hcalls, _, _, _, _, _, hres⟩ :=
    draw_graph_eq_some h
  subst hres
  have hlen : calls.length = (zip4 dls lls fcs szs).length :=
    drawNodesLoop_length hcalls
  rw [zip4_length] at hlen
  refine ⟨hlen, ?_⟩
  intro hfc
  subst hfc
  simp only [defaultNodesFontColors, List.length_cons, List.length_nil] at hlen
  simp only [hlen]
  omega

/-- Witness for C9: with three draw lists but only two label dicts,
size dicts and font colors, exactly two groups are drawn. -/
theorem claim_C9_witness :
    (DrawResult.nodeCalls
      ⟨[⟨[], [], NodeColorSpec.single "C0", "#CEECFF", none⟩,
        ⟨[], [], NodeColorSpec.single "C1", "#FFD0FD", none⟩],
        [], some [], false⟩).length =
      min ([[], [], ["z"]] : List (List Node)).length
        (min ([[], []] : List (PyDict String)).length
          (min defaultNodesFontColors.length
            ([[], []] : List (PyDict ℚ)).length)) ∧
    (DrawResult.nodeCalls
      ⟨[⟨[], [], NodeColorSpec.single "C0", "#CEECFF", none⟩,
        ⟨[], [], NodeColorSpec.single "C1", "#FFD0FD", none⟩],
        [], some [], false⟩).length ≤ 2 := by
  have h := claim_C9_group_count exEmptyGraph [[], [], ["z"]] [[], []]
    [[], []] defaultNodesFontColors none false true none 1 1 true none
    ⟨[⟨[], [], NodeColorSpec.single "C0", "#CEECFF", none⟩,
      ⟨[], [], NodeColorSpec.single "C1", "#FFD0FD", none⟩],
      [], some [], false⟩ rfl
  exact ⟨h.1, h.2 rfl⟩
